import Mathlib

/-
  Verification of the Gemini watermark remover engine (Go package `watermark`).

  The Go source is shallowly embedded: Go `int` becomes ℤ, `float32`/`float64`
  arithmetic becomes exact ℚ (except the final Pearson correlation, whose
  `math.Sqrt` is modelled with `Real.sqrt`), byte channels become ℕ, images
  become bounds plus a pixel function, and fallible functions return
  `Except Err`.  The embedded alpha-map assets (binary PNGs) are not part of
  the source text, so every operation that consults the lazily-loaded alpha
  map cache is parametrised by the `assetMask` lookup that
  `decodeAlphaAsset` would provide.
-/

set_option maxRecDepth 10000

namespace Watermark

/-- Error outcomes of the engine (Go returns `error` values built with
`fmt.Errorf`; we classify them by the return site). -/
inductive Err where
  | invalidDimensions
  | outOfBounds
  | unsupportedSize
  | alphaUnavailable
  | sizeMismatch
  | insufficientPixels
  | invalidRect
  | noClearPixels
  | noOpaquePixels
  | emptyData
  | decodeFailed
  | encodeFailed
deriving DecidableEq

/-- Go `image.Rectangle` with `Min`/`Max` corners. -/
structure Rect where
  minX : ℤ
  minY : ℤ
  maxX : ℤ
  maxY : ℤ
deriving DecidableEq

/-- Go `image.Rectangle{}` zero value. -/
def zeroRect : Rect := ⟨0, 0, 0, 0⟩

/-- Go `Rectangle.Dx`. -/
def Rect.Dx (r : Rect) : ℤ := r.maxX - r.minX

/-- Go `Rectangle.Dy`. -/
def Rect.Dy (r : Rect) : ℤ := r.maxY - r.minY

/-- Go `Rectangle.Empty`: `r.Min.X >= r.Max.X || r.Min.Y >= r.Max.Y`. -/
def Rect.isEmpty (r : Rect) : Bool :=
  decide (r.maxX ≤ r.minX) || decide (r.maxY ≤ r.minY)

/-- Go `Point.In(r)`: `r.Min.X <= p.X && p.X < r.Max.X && r.Min.Y <= p.Y && p.Y < r.Max.Y`. -/
def ptIn (p : ℤ × ℤ) (r : Rect) : Prop :=
  r.minX ≤ p.1 ∧ p.1 < r.maxX ∧ r.minY ≤ p.2 ∧ p.2 < r.maxY

instance (p : ℤ × ℤ) (r : Rect) : Decidable (ptIn p r) := by
  unfold ptIn; infer_instance

/-- Go `Rectangle.In(s)`: an empty rectangle is inside every rectangle,
otherwise all four corner comparisons must hold. -/
def Rect.In (r s : Rect) : Bool :=
  if r.isEmpty then true
  else decide (s.minX ≤ r.minX) && decide (r.maxX ≤ s.maxX) &&
       decide (s.minY ≤ r.minY) && decide (r.maxY ≤ s.maxY)

/-- Go `image.Rect(x0, y0, x1, y1)`: swaps coordinates so the result is
well-formed. -/
def mkRect (x0 y0 x1 y1 : ℤ) : Rect :=
  let px := if x0 > x1 then (x1, x0) else (x0, x1)
  let py := if y0 > y1 then (y1, y0) else (y0, y1)
  ⟨px.1, py.1, px.2, py.2⟩

/-- Go `Rectangle.Inset(n)` (the collapse branch uses Go truncated division). -/
def Rect.Inset (r : Rect) (n : ℤ) : Rect :=
  let rx : ℤ × ℤ :=
    if r.Dx < 2 * n then
      (Int.tdiv (r.minX + r.maxX) 2, Int.tdiv (r.minX + r.maxX) 2)
    else (r.minX + n, r.maxX - n)
  let ry : ℤ × ℤ :=
    if r.Dy < 2 * n then
      (Int.tdiv (r.minY + r.maxY) 2, Int.tdiv (r.minY + r.maxY) 2)
    else (r.minY + n, r.maxY - n)
  ⟨rx.1, ry.1, rx.2, ry.2⟩

/-- Go `Rectangle.Intersect(s)`: clip to the common box, and return the zero
rectangle when the result is empty. -/
def Rect.Intersect (r s : Rect) : Rect :=
  let t : Rect := ⟨max r.minX s.minX, max r.minY s.minY,
                   min r.maxX s.maxX, min r.maxY s.maxY⟩
  if t.isEmpty then zeroRect else t

/-- Go `watermarkConfig`. -/
structure watermarkConfig where
  LogoSize : ℤ
  MarginRight : ℤ
  MarginBottom : ℤ
deriving DecidableEq

/-- Go `Info`. -/
structure Info where
  Size : ℤ
  Position : Rect
deriving DecidableEq

/-- Go `DetectWatermarkConfig`: the 96/64/64 preset iff both dimensions
exceed 1024, otherwise the 48/32/32 preset. -/
def DetectWatermarkConfig (width height : ℤ) : watermarkConfig :=
  if width > 1024 ∧ height > 1024 then ⟨96, 64, 64⟩
  else ⟨48, 32, 32⟩

/-- Go `calculateWatermarkRect`. -/
def calculateWatermarkRect (bounds : Rect) (cfg : watermarkConfig) :
    Except Err Rect :=
  let x := bounds.maxX - cfg.MarginRight - cfg.LogoSize
  let y := bounds.maxY - cfg.MarginBottom - cfg.LogoSize
  let rect := mkRect x y (x + cfg.LogoSize) (y + cfg.LogoSize)
  if rect.In bounds then .ok rect else .error .outOfBounds

/-- Go `WatermarkInfo`: ignores the rectangle error (`rect, _ := ...`), in
which case the Go function has returned the zero rectangle. -/
def WatermarkInfo (width height : ℤ) : Info :=
  let cfg := DetectWatermarkConfig width height
  let rect :=
    match calculateWatermarkRect (mkRect 0 0 width height) cfg with
    | .ok r => r
    | .error _ => zeroRect
  ⟨cfg.LogoSize, rect⟩

/-- Containment of `r` in `s` the way the spec words it: every edge of `r`
within the corresponding edge of `s`. -/
def containedIn (r s : Rect) : Prop :=
  s.minX ≤ r.minX ∧ r.maxX ≤ s.maxX ∧ s.minY ≤ r.minY ∧ r.maxY ≤ s.maxY

instance (r s : Rect) : Decidable (containedIn r s) := by
  unfold containedIn; infer_instance

/-- The rectangle the spec describes: a `logoSize` square whose bottom-right
corner is inset `(marginRight, marginBottom)` from the bottom-right corner of
the bounds. -/
def specRect (bounds : Rect) (cfg : watermarkConfig) : Rect :=
  ⟨bounds.maxX - cfg.MarginRight - cfg.LogoSize,
   bounds.maxY - cfg.MarginBottom - cfg.LogoSize,
   bounds.maxX - cfg.MarginRight,
   bounds.maxY - cfg.MarginBottom⟩

/-- One pixel of Go `image.RGBA`: four 8-bit channels. -/
structure Pixel where
  r : ℕ
  g : ℕ
  b : ℕ
  a : ℕ
deriving DecidableEq

/-- Go `*image.RGBA`: a bounds rectangle plus the byte contents of the `Pix`
buffer, viewed pixel-wise. -/
structure RGBAImage where
  bounds : Rect
  pix : ℤ → ℤ → Pixel

/-- Go `image.Image`: bounds plus the `At(x, y).RGBA()` view, which yields
alpha-premultiplied 16-bit channel values `(r, g, b, a)` in `[0, 0xffff]`. -/
structure Img where
  bounds : Rect
  At : ℤ → ℤ → ℕ × ℕ × ℕ × ℕ

/-- The `image.Image` view of an RGBA buffer: Go `color.RGBA.RGBA()` scales
each byte by `0x101 = 257`, and `RGBA.At` returns the zero color outside the
bounds. -/
def toImg (img : RGBAImage) : Img :=
  ⟨img.bounds, fun x y =>
    if ptIn (x, y) img.bounds then
      (257 * (img.pix x y).r, 257 * (img.pix x y).g,
       257 * (img.pix x y).b, 257 * (img.pix x y).a)
    else (0, 0, 0, 0)⟩

/-- Go `cloneToRGBA`: `draw.Draw(dst, bounds, src, bounds.Min, draw.Src)` into
a fresh `image.NewRGBA(bounds)` buffer; each written pixel is the
`color.RGBAModel` conversion `uint8(c >> 8)` of the source's 16-bit channels,
and pixels outside the bounds stay at the zero value. -/
def cloneToRGBA (img : Img) : RGBAImage :=
  ⟨img.bounds, fun x y =>
    if ptIn (x, y) img.bounds then
      ⟨(img.At x y).1 / 256, (img.At x y).2.1 / 256,
       (img.At x y).2.2.1 / 256, (img.At x y).2.2.2 / 256⟩
    else ⟨0, 0, 0, 0⟩⟩

/-- All channels of an RGBA buffer are genuine bytes. -/
def WellFormed (img : RGBAImage) : Prop :=
  ∀ x y, (img.pix x y).r ≤ 255 ∧ (img.pix x y).g ≤ 255 ∧
    (img.pix x y).b ≤ 255 ∧ (img.pix x y).a ≤ 255

/-- Go constant `alphaThreshold = 0.002`. -/
def alphaThreshold : ℚ := 2 / 1000

/-- Go constant `maxAlpha = 0.99`. -/
def maxAlpha : ℚ := 99 / 100

/-- Go constant `logoValue = 255.0`. -/
def logoValue : ℚ := 255

/-- Go `math.Round`: round to nearest, halves away from zero. -/
def mathRound (x : ℚ) : ℤ :=
  if 0 ≤ x then ⌊x + 1 / 2⌋ else -⌊-x + 1 / 2⌋

/-- The body of the per-channel loop in `applyReverseAlpha`:
`original := (watermarked - alpha*logoValue) / (1 - alpha)`, clamped to
`[0, 255]` by `math.Max(0, math.Min(255, original))`, then stored as
`uint8(math.Round(original))`. -/
def reverseChannel (alpha : ℚ) (watermarked : ℕ) : ℕ :=
  (mathRound (max 0 (min 255 (((watermarked : ℚ) - alpha * logoValue) / (1 - alpha))))).toNat

/-- Go `applyReverseAlpha`: within `rect`, looks up
`alphaMap[row*stride+col]`, skips the pixel when `alpha < alphaThreshold`,
clamps `alpha` to `maxAlpha`, rewrites the three color channels with
`reverseChannel` and leaves the fourth (alpha) byte alone.  The Go loop
writes each pixel of the clone exactly once from its own previous value, so
it is embedded pixel-wise. -/
def applyReverseAlpha (img : RGBAImage) (alphaMap : List ℚ) (rect : Rect) :
    RGBAImage :=
  ⟨img.bounds, fun x y =>
    if ptIn (x, y) rect then
      let row := (y - rect.minY).toNat
      let col := (x - rect.minX).toNat
      let alpha := alphaMap.getD (row * rect.Dx.toNat + col) 0
      if alpha < alphaThreshold then img.pix x y
      else
        let alpha := if alpha > maxAlpha then maxAlpha else alpha
        let p := img.pix x y
        ⟨reverseChannel alpha p.r, reverseChannel alpha p.g,
         reverseChannel alpha p.b, p.a⟩
    else img.pix x y⟩

/-- Go `Engine.getAlphaMap` (and the parallel `detectAlphaMap` package
cache): sizes other than 48 and 96 have no `sync.Once` entry and fail as
unsupported; otherwise the memoized result of `decodeAlphaAsset size` is
returned.  The asset bytes are binary PNGs outside the source text, so the
loader result is the parameter `assetMask`. -/
def getAlphaMap (assetMask : ℤ → Except Err (List ℚ)) (size : ℤ) :
    Except Err (List ℚ) :=
  if size = 48 ∨ size = 96 then assetMask size else .error .unsupportedSize

/-- Go `Engine.RemoveWatermark` (the `img == nil` guard has no counterpart
for a Lean value): dimension guard, placement, alpha-map load, size check,
then clone-and-transform. -/
def RemoveWatermark (assetMask : ℤ → Except Err (List ℚ)) (img : Img) :
    Except Err RGBAImage :=
  if img.bounds.Dx ≤ 0 ∨ img.bounds.Dy ≤ 0 then .error .invalidDimensions
  else
    let cfg := DetectWatermarkConfig img.bounds.Dx img.bounds.Dy
    match calculateWatermarkRect img.bounds cfg with
    | .error e => .error e
    | .ok rect =>
      match getAlphaMap assetMask cfg.LogoSize with
      | .error e => .error e
      | .ok alphaMap =>
        if (alphaMap.length : ℤ) ≠ rect.Dx * rect.Dy then .error .sizeMismatch
        else .ok (applyReverseAlpha (cloneToRGBA img) alphaMap rect)

/-- The points of a rectangle in the row-major order every Go loop in the
package uses (`y` outer from `Min.Y`, `x` inner from `Min.X`). -/
def rectPoints (r : Rect) : List (ℤ × ℤ) :=
  (List.range r.Dy.toNat).flatMap fun (row : ℕ) =>
    (List.range r.Dx.toNat).map fun (col : ℕ) =>
      (r.minX + (col : ℤ), r.minY + (row : ℤ))

/-- Go `calculateAlphaMap`: per pixel, the maximum of the three raw 16-bit
color channels scaled by `1/65535`, flattened row-major. -/
def calculateAlphaMap (img : Img) : List ℚ :=
  (rectPoints img.bounds).map fun p =>
    ((max (img.At p.1 p.2).1 (max (img.At p.1 p.2).2.1 (img.At p.1 p.2).2.2.1) : ℕ) : ℚ) / 65535

/-- The per-channel formula as the spec words it: clamp the opacity to at
most `0.99`, recover `(watermarked - a·255) / (1 - a)`, clamp to `[0, 255]`
and round to the nearest channel value. -/
def claimChannel (a : ℚ) (watermarked : ℕ) : ℕ :=
  (mathRound (max 0 (min 255
    (((watermarked : ℚ) - min a maxAlpha * 255) / (1 - min a maxAlpha))))).toNat

/-- Concrete 1×1 buffer for the C1 witness. -/
def c1Img : RGBAImage := ⟨⟨0, 0, 1, 1⟩, fun _ _ => ⟨200, 10, 0, 7⟩⟩

/-- Concrete one-entry mask for the C1 witness. -/
def c1Mask : List ℚ := [1 / 10]

/-- Synthetic composition of one channel, per the spec's round-trip test:
`watermarked = a·255 + (1-a)·original`, quantized to the nearest byte (a
pixel buffer holds bytes, so the composite must be quantized). -/
def compositeChannel (a : ℚ) (v : ℕ) : ℕ :=
  (mathRound (a * 255 + (1 - a) * v)).toNat

/-- Synthetic composited image built from a known original and a mask, the
mask being indexed exactly as `applyReverseAlpha` indexes it. -/
def composite (orig : RGBAImage) (alphaMap : List ℚ) (rect : Rect) :
    RGBAImage :=
  ⟨orig.bounds, fun x y =>
    if ptIn (x, y) rect then
      let a := alphaMap.getD
        ((y - rect.minY).toNat * rect.Dx.toNat + (x - rect.minX).toNat) 0
      ⟨compositeChannel a (orig.pix x y).r, compositeChannel a (orig.pix x y).g,
       compositeChannel a (orig.pix x y).b, (orig.pix x y).a⟩
    else orig.pix x y⟩

/-- Concrete original buffer for the C2 witness. -/
def c2Orig : RGBAImage := ⟨⟨0, 0, 1, 1⟩, fun _ _ => ⟨100, 100, 100, 255⟩⟩

/-- Concrete 80×80 buffer for the C8 witness. -/
def c8Src : RGBAImage := ⟨⟨0, 0, 80, 80⟩, fun _ _ => ⟨1, 2, 3, 4⟩⟩

/-- Concrete all-zero 48×48 mask for the C8 witness. -/
def c8Mask : List ℚ := List.replicate 2304 0

/-- Concrete 1×1 reference capture for the C7 witness. -/
def c7Img : Img := ⟨⟨0, 0, 1, 1⟩, fun _ _ => (100, 200, 300, 65535)⟩

/-- Go constant `detectionLumaThreshold = 6.0`. -/
def detectionLumaThreshold : ℚ := 6

/-- Go constant `detectionCorrelationThreshold = 0.20`. -/
def detectionCorrelationThreshold : ℚ := 20 / 100

/-- Go constant `clearAlphaCutoff = 0.02` (local to `scoreWatermark`). -/
def clearAlphaCutoff : ℚ := 2 / 100

/-- The luma formula used throughout detection:
`0.2126*r/257 + 0.7152*g/257 + 0.0722*b/257` on the 16-bit `RGBA()`
channel values (the Go float literals are modelled as exact rationals). -/
def lumaAt (img : Img) (p : ℤ × ℤ) : ℚ :=
  2126 / 10000 * ((img.At p.1 p.2).1 : ℚ) / 257 +
  7152 / 10000 * ((img.At p.1 p.2).2.1 : ℚ) / 257 +
  722 / 10000 * ((img.At p.1 p.2).2.2.1 : ℚ) / 257

/-- Go `meanLuma`: average luma over `region`, skipping points of `exclude`
when `exclude` is not the zero rectangle; returns `(0, 0)` when no pixel was
sampled. -/
def meanLuma (img : Img) (region exclude : Rect) : ℚ × ℕ :=
  let pts := (rectPoints region).filter fun p =>
    !(decide (exclude ≠ zeroRect) && decide (ptIn p exclude))
  if pts.length = 0 then (0, 0)
  else (pts.foldl (fun s p => s + lumaAt img p) 0 / (pts.length : ℚ), pts.length)

/-- The rational-valued part of Go `scoreWatermark`: guards, the single pass
accumulating residuals and the alpha sums (embedded as zips over the
row-major points, which agree with the Go loop because the length equality
is checked first), and the `delta`, `numerator`, `alphaVar` and `resVar`
quantities.  The final `corr = numerator / sqrt(alphaVar*resVar)` step lives
in `scoreWatermark` because square roots leave ℚ. -/
def scoreCore (img : Img) (rect : Rect) (alphaMap : List ℚ) (bgMean : ℚ) :
    Except Err (ℚ × ℚ × ℚ × ℚ) :=
  if rect.Dx ≤ 0 ∨ rect.Dy ≤ 0 then .error .invalidRect
  else if (alphaMap.length : ℤ) ≠ rect.Dx * rect.Dy then .error .sizeMismatch
  else
    let required := rect.Dx.toNat * rect.Dy.toNat
    let pairs := (rectPoints rect).zip alphaMap
    let residuals := pairs.map fun pa => lumaAt img pa.1 - bgMean
    let sumResidual := residuals.foldl (fun s x => s + x) 0
    let sumAlpha := alphaMap.foldl (fun s x => s + x) 0
    let sumAlphaSq := alphaMap.foldl (fun s x => s + x * x) 0
    let clearPairs := pairs.filter fun pa => decide (pa.2 < clearAlphaCutoff)
    let clearSum := clearPairs.foldl (fun s pa => s + (lumaAt img pa.1 - bgMean)) 0
    if clearPairs.length = 0 then .error .noClearPixels
    else if sumAlpha = 0 then .error .noOpaquePixels
    else
      let clearMean := clearSum / (clearPairs.length : ℚ)
      let weightedResidual := (residuals.zip alphaMap).foldl
        (fun s ra => s + ra.1 * ra.2) 0
      let delta := weightedResidual / sumAlpha - clearMean
      let residualMean := sumResidual / (required : ℚ)
      let alphaMean := sumAlpha / (required : ℚ)
      let numerator := (alphaMap.zip residuals).foldl
        (fun s ar => s + (ar.1 - alphaMean) * (ar.2 - residualMean)) 0
      let resVar := residuals.foldl
        (fun s x => s + (x - residualMean) * (x - residualMean)) 0
      let alphaVar := sumAlphaSq - (required : ℚ) * alphaMean * alphaMean
      .ok (delta, numerator, alphaVar, resVar)

/-- Go `scoreWatermark`: the core quantities, then
`denominator := math.Sqrt(alphaVar * resVar)`; when the denominator is zero
the correlation is reported as `0` with no error, otherwise it is
`numerator / denominator`. -/
noncomputable def scoreWatermark (img : Img) (rect : Rect)
    (alphaMap : List ℚ) (bgMean : ℚ) : Except Err (ℚ × ℝ) :=
  match scoreCore img rect alphaMap bgMean with
  | .error e => .error e
  | .ok (delta, numerator, alphaVar, resVar) =>
    if Real.sqrt (((alphaVar * resVar : ℚ) : ℝ)) = 0 then .ok (delta, 0)
    else .ok (delta, ((numerator : ℚ) : ℝ) / Real.sqrt (((alphaVar * resVar : ℚ) : ℝ)))

/-- Go `present = score > detectionLumaThreshold && corr > detectionCorrelationThreshold`. -/
noncomputable def detectPresent (score : ℚ) (corr : ℝ) : Bool :=
  decide (detectionLumaThreshold < score) &&
  decide (((detectionCorrelationThreshold : ℚ) : ℝ) < corr)

/-- The surrounding-band width in `DetectWatermark`:
`band := cfg.LogoSize / 3; if band < 8 { band = 8 }` (Go integer division
truncates). -/
def bandOf (size : ℤ) : ℤ :=
  if Int.tdiv size 3 < 8 then 8 else Int.tdiv size 3

/-- Go `DetectWatermark` (part_003, correlation-gated version): guards,
placement, mask load, the surrounding band, the two `meanLuma` passes (the
first mean is discarded; only its count is checked), scoring, and the
two-threshold presence decision. -/
noncomputable def DetectWatermark (assetMask : ℤ → Except Err (List ℚ))
    (img : Img) : Except Err (Bool × ℚ × Info) :=
  if img.bounds.Dx ≤ 0 ∨ img.bounds.Dy ≤ 0 then .error .invalidDimensions
  else
    let cfg := DetectWatermarkConfig img.bounds.Dx img.bounds.Dy
    match calculateWatermarkRect img.bounds cfg with
    | .error e => .error e
    | .ok rect =>
      match getAlphaMap assetMask cfg.LogoSize with
      | .error e => .error e
      | .ok alphaMap =>
        let outer := (rect.Inset (-(bandOf cfg.LogoSize))).Intersect img.bounds
        if (meanLuma img rect zeroRect).2 = 0 ∨
            (meanLuma img outer rect).2 = 0 then
          .error .insufficientPixels
        else
          match scoreWatermark img rect alphaMap
              (meanLuma img outer rect).1 with
          | .error e => .error e
          | .ok (score, corr) =>
            .ok (detectPresent score corr, score, ⟨cfg.LogoSize, rect⟩)

/-- Go `DetectWatermarkBytes`: empty-input guard, decode (the codec is the
out-of-scope collaborator, passed as `decode`), then `DetectWatermark`. -/
noncomputable def DetectWatermarkBytes (decode : List ℕ → Except Err Img)
    (assetMask : ℤ → Except Err (List ℚ)) (data : List ℕ) :
    Except Err (Bool × ℚ × Info) :=
  if data = [] then .error .emptyData
  else
    match decode data with
    | .error e => .error e
    | .ok img => DetectWatermark assetMask img

/-- Go `RemoveWatermarkBytes`: empty-input guard, decode, detect; when the
mark is absent return `(nil, false, score, info)` with no error; otherwise
remove with a fresh engine (same asset loader) and encode the cleaned image
as PNG through the codec collaborator `encodePNG`. -/
noncomputable def RemoveWatermarkBytes (decode : List ℕ → Except Err Img)
    (encodePNG : RGBAImage → Except Err (List ℕ))
    (assetMask : ℤ → Except Err (List ℚ)) (input : List ℕ) :
    Except Err (Option (List ℕ) × Bool × ℚ × Info) :=
  if input = [] then .error .emptyData
  else
    match decode input with
    | .error e => .error e
    | .ok img =>
      match DetectWatermark assetMask img with
      | .error e => .error e
      | .ok (present, score, info) =>
        if present = false then .ok (none, false, score, info)
        else
          match RemoveWatermark assetMask img with
          | .error e => .error e
          | .ok cleaned =>
            match encodePNG cleaned with
            | .error e => .error e
            | .ok output => .ok (some output, true, score, info)

/-- The spec-side image pipeline for C9: detect on the decoded image, stop
with `(none, false, ...)` when absent, otherwise remove and encode. -/
noncomputable def detectThenRemoveImage
    (encodePNG : RGBAImage → Except Err (List ℕ))
    (assetMask : ℤ → Except Err (List ℚ)) (img : Img) :
    Except Err (Option (List ℕ) × Bool × ℚ × Info) :=
  match DetectWatermark assetMask img with
  | .error e => .error e
  | .ok (present, score, info) =>
    if present = false then .ok (none, false, score, info)
    else
      match RemoveWatermark assetMask img with
      | .error e => .error e
      | .ok cleaned =>
        match encodePNG cleaned with
        | .error e => .error e
        | .ok output => .ok (some output, true, score, info)

/-- Concrete 1×1 image for the C9 witness. -/
def c9Img : Img := ⟨⟨0, 0, 1, 1⟩, fun _ _ => (7, 8, 9, 65535)⟩

/-- All-black 80×80 image for the C3 witness. -/
def c3Img : Img := ⟨⟨0, 0, 80, 80⟩, fun _ _ => (0, 0, 0, 0)⟩

/-- Constant mask of opacity `0.01` for the C3 witness (all entries clear,
zero variance in the opacity series). -/
def c3Mask : List ℚ := List.replicate 2304 (1 / 100)

/-- Claim C4: the placement config resolver returns the `{96, 64, 64}` preset
exactly when `width > 1024` and `height > 1024`, the `{48, 32, 32}` preset
otherwise, and in particular `(1024, 1025)` selects the 48 preset. -/
theorem detectWatermarkConfig_spec :
    (∀ width height : ℤ,
      (DetectWatermarkConfig width height = ⟨96, 64, 64⟩ ↔
        (1024 < width ∧ 1024 < height)) ∧
      (DetectWatermarkConfig width height = ⟨48, 32, 32⟩ ↔
        ¬(1024 < width ∧ 1024 < height))) ∧
    DetectWatermarkConfig 1024 1025 = ⟨48, 32, 32⟩ := by
  constructor
  · intro width height
    unfold DetectWatermarkConfig
    constructor
    · constructor
      · intro h
        by_contra hc
        rw [if_neg hc] at h
        exact absurd (congrArg watermarkConfig.LogoSize h) (by norm_num)
      · intro h
        rw [if_pos h]
    · constructor
      · intro h
        intro hc
        rw [if_pos hc] at h
        exact absurd (congrArg watermarkConfig.LogoSize h) (by norm_num)
      · intro h
        rw [if_neg h]
  · decide

/-- Claim C5: the rectangle resolver returns exactly the
`logoSize × logoSize` rectangle inset `(marginRight, marginBottom)` from the
bottom-right corner of the bounds, succeeding precisely when that rectangle
is fully contained in the bounds and failing with `outOfBounds` otherwise. -/
theorem calculateWatermarkRect_spec (bounds : Rect) (cfg : watermarkConfig)
    (hpos : 0 < cfg.LogoSize) :
    ((specRect bounds cfg).Dx = cfg.LogoSize ∧
     (specRect bounds cfg).Dy = cfg.LogoSize) ∧
    (calculateWatermarkRect bounds cfg = .ok (specRect bounds cfg) ↔
      containedIn (specRect bounds cfg) bounds) ∧
    (calculateWatermarkRect bounds cfg = .error .outOfBounds ↔
      ¬ containedIn (specRect bounds cfg) bounds) := by
  have hmk : mkRect (bounds.maxX - cfg.MarginRight - cfg.LogoSize)
      (bounds.maxY - cfg.MarginBottom - cfg.LogoSize)
      (bounds.maxX - cfg.MarginRight - cfg.LogoSize + cfg.LogoSize)
      (bounds.maxY - cfg.MarginBottom - cfg.LogoSize + cfg.LogoSize) =
      specRect bounds cfg := by
    have h1 : ¬ bounds.maxX - cfg.MarginRight - cfg.LogoSize >
        bounds.maxX - cfg.MarginRight - cfg.LogoSize + cfg.LogoSize := by omega
    have h2 : ¬ bounds.maxY - cfg.MarginBottom - cfg.LogoSize >
        bounds.maxY - cfg.MarginBottom - cfg.LogoSize + cfg.LogoSize := by omega
    simp only [mkRect, specRect, if_neg h1, if_neg h2, Rect.mk.injEq]
    refine ⟨trivial, trivial, by omega, by omega⟩
  have hcalc : calculateWatermarkRect bounds cfg =
      if (specRect bounds cfg).In bounds then .ok (specRect bounds cfg)
      else .error .outOfBounds := by
    simp only [calculateWatermarkRect]
    rw [hmk]
  have hne : (specRect bounds cfg).isEmpty = false := by
    simp only [Rect.isEmpty, specRect, Bool.or_eq_false_iff,
      decide_eq_false_iff_not, not_le]
    omega
  have hin : ((specRect bounds cfg).In bounds = true) ↔
      containedIn (specRect bounds cfg) bounds := by
    unfold Rect.In
    rw [hne]
    simp only [Bool.false_eq_true, if_false, Bool.and_eq_true,
      decide_eq_true_eq]
    unfold containedIn
    tauto
  refine ⟨⟨?_, ?_⟩, ?_, ?_⟩
  · simp only [Rect.Dx, specRect]; omega
  · simp only [Rect.Dy, specRect]; omega
  · constructor
    · intro h
      rw [hcalc] at h
      by_cases hb : (specRect bounds cfg).In bounds = true
      · exact hin.mp hb
      · rw [if_neg hb] at h
        cases h
    · intro h
      rw [hcalc, if_pos (hin.mpr h)]
  · constructor
    · intro h hc
      rw [hcalc, if_pos (hin.mpr hc)] at h
      cases h
    · intro h
      rw [hcalc, if_neg (fun hb => h (hin.mp hb))]

/-- Witness for C5 at a concrete 100×100 image and the 48 preset. -/
theorem calculateWatermarkRect_spec_witness :
    ((0 : ℤ) < (48 : ℤ)) ∧
    (calculateWatermarkRect ⟨0, 0, 100, 100⟩ ⟨48, 32, 32⟩ =
        .ok (specRect ⟨0, 0, 100, 100⟩ ⟨48, 32, 32⟩) ↔
      containedIn (specRect ⟨0, 0, 100, 100⟩ ⟨48, 32, 32⟩) ⟨0, 0, 100, 100⟩) := by
  refine ⟨by decide, ?_⟩
  have h := calculateWatermarkRect_spec ⟨0, 0, 100, 100⟩ ⟨48, 32, 32⟩ (by decide)
  exact h.2.1

/-- Claim C10: when the placement rectangle does not fit, `WatermarkInfo`
reports no error: it returns the config-selected size together with the zero
rectangle as position. -/
theorem watermarkInfo_swallows_failure (width height : ℤ) (e : Err)
    (h : calculateWatermarkRect (mkRect 0 0 width height)
          (DetectWatermarkConfig width height) = .error e) :
    WatermarkInfo width height =
      ⟨(DetectWatermarkConfig width height).LogoSize, zeroRect⟩ := by
  simp only [WatermarkInfo]
  rw [h]

/-- Witness for C10 at a 10×10 image (too small for the 48 preset). -/
theorem watermarkInfo_swallows_failure_witness :
    WatermarkInfo 10 10 = ⟨48, zeroRect⟩ := by
  have h : calculateWatermarkRect (mkRect 0 0 10 10)
      (DetectWatermarkConfig 10 10) = .error Err.outOfBounds := by
    rfl
  have := watermarkInfo_swallows_failure 10 10 Err.outOfBounds h
  simpa using this

/-- Claim C1: within the rectangle, a pixel whose mask value is below
`0.002` is left unchanged; otherwise its three color channels are rewritten
with `claimChannel` (opacity clamped to at most `0.99`); and the alpha byte
of every pixel of the buffer is left untouched. -/
theorem applyReverseAlpha_pointwise (img : RGBAImage) (alphaMap : List ℚ)
    (rect : Rect)
    (hlen : alphaMap.length = rect.Dx.toNat * rect.Dy.toNat) :
    (∀ x y a, ptIn (x, y) rect →
      a = alphaMap.getD
            ((y - rect.minY).toNat * rect.Dx.toNat + (x - rect.minX).toNat) 0 →
      ((a < alphaThreshold →
         (applyReverseAlpha img alphaMap rect).pix x y = img.pix x y) ∧
       (alphaThreshold ≤ a →
         (applyReverseAlpha img alphaMap rect).pix x y =
           ⟨claimChannel a (img.pix x y).r, claimChannel a (img.pix x y).g,
            claimChannel a (img.pix x y).b, (img.pix x y).a⟩))) ∧
    (∀ x y, ((applyReverseAlpha img alphaMap rect).pix x y).a =
      (img.pix x y).a) := by
  have hclamp : ∀ a : ℚ, (if a > maxAlpha then maxAlpha else a) = min a maxAlpha := by
    intro a
    by_cases h : a > maxAlpha
    · rw [if_pos h, min_eq_right (le_of_lt h)]
    · rw [if_neg h, min_eq_left (not_lt.mp h)]
  constructor
  · intro x y a hin ha
    constructor
    · intro hskip
      simp only [applyReverseAlpha]
      rw [if_pos hin, ← ha, if_pos hskip]
    · intro hkeep
      have hns : ¬ a < alphaThreshold := not_lt.mpr hkeep
      simp only [applyReverseAlpha]
      rw [if_pos hin, ← ha, if_neg hns, hclamp a]
      simp only [reverseChannel, claimChannel, logoValue]
  · intro x y
    simp only [applyReverseAlpha]
    by_cases hin : ptIn (x, y) rect
    · rw [if_pos hin]
      by_cases hskip : alphaMap.getD
          ((y - rect.minY).toNat * rect.Dx.toNat + (x - rect.minX).toNat) 0 <
          alphaThreshold
      · rw [if_pos hskip]
      · rw [if_neg hskip]
    · rw [if_neg hin]

/-- Witness for C1 at a 1×1 rectangle with mask value `0.1`. -/
theorem applyReverseAlpha_pointwise_witness :
    (applyReverseAlpha c1Img c1Mask ⟨0, 0, 1, 1⟩).pix 0 0 =
      ⟨claimChannel (1 / 10) 200, claimChannel (1 / 10) 10,
       claimChannel (1 / 10) 0, 7⟩ := by
  have h := (applyReverseAlpha_pointwise c1Img c1Mask ⟨0, 0, 1, 1⟩
      (by decide)).1 0 0 (1 / 10) (by decide) rfl
  exact h.2 (by norm_num [alphaThreshold])

/-- Clamp-and-round keeps an approximation within one of the true byte: if
`o` is within `(-1, 1]` of the byte `v`, then `⌊max 0 (min 255 o) + 1/2⌋`
lands in `[v - 1, v + 1]`. -/
theorem floor_clamp_close (v : ℕ) (o : ℚ) (hv : v ≤ 255)
    (hlo : -1 < o - v) (hhi : o - v ≤ 1) :
    (v : ℤ) - 1 ≤ ⌊max 0 (min 255 o) + 1 / 2⌋ ∧
    ⌊max 0 (min 255 o) + 1 / 2⌋ ≤ (v : ℤ) + 1 := by
  have hvq0 : (0 : ℚ) ≤ (v : ℚ) := Nat.cast_nonneg v
  have hvq255 : ((v : ℚ)) ≤ 255 := by exact_mod_cast hv
  have hhalf : (⌊(1 / 2 : ℚ)⌋ : ℤ) = 0 := by
    rw [Int.floor_eq_zero_iff]
    constructor <;> norm_num
  have hfloor_int_half : ∀ z : ℤ, ⌊((z : ℚ)) + 1 / 2⌋ = z := by
    intro z
    rw [Int.floor_int_add, hhalf, add_zero]
  constructor
  · rcases lt_or_le o 0 with ho0 | ho0
    · have hc : max 0 (min 255 o) = 0 := by
        rw [min_eq_right (le_of_lt (lt_of_lt_of_le ho0 (by norm_num))),
          max_eq_left (le_of_lt ho0)]
      have hv1 : (v : ℚ) < 1 := by linarith
      have hv0 : v = 0 := by
        have : v < 1 := by exact_mod_cast hv1
        omega
      rw [hc, hv0, zero_add, hhalf]
      norm_num
    · rcases le_or_lt o 255 with ho255 | ho255
      · have hc : max 0 (min 255 o) = o := by
          rw [min_eq_right ho255, max_eq_right ho0]
        rw [hc]
        have hle : ((v - 1 : ℤ) : ℚ) + 1 / 2 ≤ o + 1 / 2 := by
          push_cast
          linarith
        calc (v : ℤ) - 1 = ⌊((v - 1 : ℤ) : ℚ) + 1 / 2⌋ := (hfloor_int_half _).symm
          _ ≤ ⌊o + 1 / 2⌋ := Int.floor_le_floor hle
      · have hc : max 0 (min 255 o) = 255 := by
          rw [min_eq_left (le_of_lt ho255), max_eq_right (by norm_num : (0:ℚ) ≤ 255)]
        rw [hc]
        have h255 : ⌊((255 : ℤ) : ℚ) + 1 / 2⌋ = 255 := hfloor_int_half 255
        simp only [Int.cast_ofNat] at h255
        have : ⌊(255 : ℚ) + 1 / 2⌋ = 255 := by exact_mod_cast h255
        rw [this]
        omega
  · have hc : max 0 (min 255 o) ≤ (v : ℚ) + 1 := by
      apply max_le
      · positivity
      · exact le_trans (min_le_right _ _) (by linarith)
    have hle : max 0 (min 255 o) + 1 / 2 ≤ ((v + 1 : ℤ) : ℚ) + 1 / 2 := by
      push_cast
      linarith
    calc ⌊max 0 (min 255 o) + 1 / 2⌋ ≤ ⌊((v + 1 : ℤ) : ℚ) + 1 / 2⌋ :=
        Int.floor_le_floor hle
      _ = (v : ℤ) + 1 := hfloor_int_half _

/-- Round-trip per channel: composing with `a ∈ [0.002, 1/2]`, quantizing to
a byte, and reversing recovers the original byte within one. -/
theorem reverseChannel_compositeChannel (a : ℚ) (v : ℕ) (hv : v ≤ 255)
    (ha1 : alphaThreshold ≤ a) (ha2 : a ≤ 1 / 2) :
    |((reverseChannel a (compositeChannel a v) : ℤ)) - (v : ℤ)| ≤ 1 := by
  have ha0 : (0 : ℚ) < a := lt_of_lt_of_le (by norm_num [alphaThreshold]) ha1
  have h1a0 : (0 : ℚ) < 1 - a := by linarith
  have h1a2 : (1 / 2 : ℚ) ≤ 1 - a := by linarith
  have hvq255 : ((v : ℚ)) ≤ 255 := by exact_mod_cast hv
  have hvq0 : (0 : ℚ) ≤ (v : ℚ) := Nat.cast_nonneg v
  have hw0 : (0 : ℚ) ≤ a * 255 + (1 - a) * v := by positivity
  have hw255 : a * 255 + (1 - a) * v ≤ 255 := by nlinarith
  have hcc : compositeChannel a v = (⌊a * 255 + (1 - a) * v + 1 / 2⌋).toNat := by
    unfold compositeChannel mathRound
    rw [if_pos hw0]
  have hwb0 : (0 : ℤ) ≤ ⌊a * 255 + (1 - a) * v + 1 / 2⌋ := by
    apply Int.floor_nonneg.mpr
    linarith
  have hwbl : ((⌊a * 255 + (1 - a) * v + 1 / 2⌋ : ℤ) : ℚ) ≤
      a * 255 + (1 - a) * v + 1 / 2 := Int.floor_le _
  have hwbg : a * 255 + (1 - a) * v + 1 / 2 - 1 <
      ((⌊a * 255 + (1 - a) * v + 1 / 2⌋ : ℤ) : ℚ) := Int.sub_one_lt_floor _
  have hcast : (((⌊a * 255 + (1 - a) * v + 1 / 2⌋).toNat : ℕ) : ℚ) =
      ((⌊a * 255 + (1 - a) * v + 1 / 2⌋ : ℤ) : ℚ) := by
    exact_mod_cast congrArg (Int.cast : ℤ → ℚ) (Int.toNat_of_nonneg hwb0)
  have hres : reverseChannel a (compositeChannel a v) =
      (⌊max 0 (min 255
        ((((⌊a * 255 + (1 - a) * v + 1 / 2⌋ : ℤ) : ℚ) - a * 255) / (1 - a)))
        + 1 / 2⌋).toNat := by
    unfold reverseChannel mathRound logoValue
    rw [hcc, hcast, if_pos (le_max_left _ _)]
  have ho : ((((⌊a * 255 + (1 - a) * v + 1 / 2⌋ : ℤ) : ℚ) - a * 255) / (1 - a))
      - v = (((⌊a * 255 + (1 - a) * v + 1 / 2⌋ : ℤ) : ℚ)
        - (a * 255 + (1 - a) * v)) / (1 - a) := by
    field_simp
    ring
  have hlo : -1 < (((( ⌊a * 255 + (1 - a) * v + 1 / 2⌋ : ℤ) : ℚ) - a * 255)
      / (1 - a)) - v := by
    rw [ho, lt_div_iff₀ h1a0]
    linarith
  have hhi : ((((⌊a * 255 + (1 - a) * v + 1 / 2⌋ : ℤ) : ℚ) - a * 255)
      / (1 - a)) - v ≤ 1 := by
    rw [ho, div_le_one h1a0]
    linarith
  obtain ⟨hdn, hup⟩ := floor_clamp_close v _ hv hlo hhi
  have hfl0 : (0 : ℤ) ≤ ⌊max 0 (min 255
      ((((⌊a * 255 + (1 - a) * v + 1 / 2⌋ : ℤ) : ℚ) - a * 255) / (1 - a)))
      + 1 / 2⌋ := by
    apply Int.floor_nonneg.mpr
    have : (0 : ℚ) ≤ max 0 (min 255
        ((((⌊a * 255 + (1 - a) * v + 1 / 2⌋ : ℤ) : ℚ) - a * 255) / (1 - a))) :=
      le_max_left _ _
    linarith
  rw [hres, Int.toNat_of_nonneg hfl0, abs_le]
  exact ⟨by omega, by omega⟩

/-- Claim C2 (amended): for mask opacities in `[0.002, 1/2]`, compositing
`watermarked = a·255 + (1-a)·original` quantized to the nearest byte and
then removing recovers every color channel within ±1, and leaves the alpha
byte unchanged, at every pixel of the rectangle. -/
theorem removal_roundTrip (orig : RGBAImage) (alphaMap : List ℚ) (rect : Rect)
    (hwf : WellFormed orig)
    (hlen : alphaMap.length = rect.Dx.toNat * rect.Dy.toNat)
    (hmask : ∀ a ∈ alphaMap, alphaThreshold ≤ a ∧ a ≤ 1 / 2)
    (x y : ℤ) (hin : ptIn (x, y) rect) :
    |(((applyReverseAlpha (composite orig alphaMap rect) alphaMap rect).pix x y).r : ℤ)
      - ((orig.pix x y).r : ℤ)| ≤ 1 ∧
    |(((applyReverseAlpha (composite orig alphaMap rect) alphaMap rect).pix x y).g : ℤ)
      - ((orig.pix x y).g : ℤ)| ≤ 1 ∧
    |(((applyReverseAlpha (composite orig alphaMap rect) alphaMap rect).pix x y).b : ℤ)
      - ((orig.pix x y).b : ℤ)| ≤ 1 ∧
    ((applyReverseAlpha (composite orig alphaMap rect) alphaMap rect).pix x y).a
      = (orig.pix x y).a := by
  have hDx : rect.Dx.toNat = (rect.maxX - rect.minX).toNat := rfl
  have hDy : rect.Dy.toNat = (rect.maxY - rect.minY).toNat := rfl
  obtain ⟨hx1, hx2, hy1, hy2⟩ := hin
  have hrow : (y - rect.minY).toNat < rect.Dy.toNat := by
    rw [hDy]
    omega
  have hcol : (x - rect.minX).toNat < rect.Dx.toNat := by
    rw [hDx]
    omega
  have hidx : (y - rect.minY).toNat * rect.Dx.toNat + (x - rect.minX).toNat <
      alphaMap.length := by
    rw [hlen]
    calc (y - rect.minY).toNat * rect.Dx.toNat + (x - rect.minX).toNat
        < (y - rect.minY).toNat * rect.Dx.toNat + rect.Dx.toNat := by omega
      _ = ((y - rect.minY).toNat + 1) * rect.Dx.toNat := by ring
      _ ≤ rect.Dy.toNat * rect.Dx.toNat := Nat.mul_le_mul_right _ hrow
      _ = rect.Dx.toNat * rect.Dy.toNat := Nat.mul_comm _ _
  set aIdx := alphaMap.getD
      ((y - rect.minY).toNat * rect.Dx.toNat + (x - rect.minX).toNat) 0 with haIdx
  have hmem : aIdx ∈ alphaMap := by
    rw [haIdx, List.getD_eq_getElem _ _ hidx]
    exact List.getElem_mem hidx
  obtain ⟨ha1, ha2⟩ := hmask _ hmem
  have hin' : ptIn (x, y) rect := ⟨hx1, hx2, hy1, hy2⟩
  have hcomp : (composite orig alphaMap rect).pix x y =
      ⟨compositeChannel aIdx (orig.pix x y).r,
       compositeChannel aIdx (orig.pix x y).g,
       compositeChannel aIdx (orig.pix x y).b,
       (orig.pix x y).a⟩ := by
    simp only [composite]
    rw [if_pos hin']
  have hns : ¬ aIdx < alphaThreshold := not_lt.mpr ha1
  have hnc : ¬ aIdx > maxAlpha :=
    not_lt.mpr (le_trans ha2 (by norm_num [maxAlpha]))
  have hout : (applyReverseAlpha (composite orig alphaMap rect) alphaMap rect).pix x y =
      ⟨reverseChannel aIdx (compositeChannel aIdx (orig.pix x y).r),
       reverseChannel aIdx (compositeChannel aIdx (orig.pix x y).g),
       reverseChannel aIdx (compositeChannel aIdx (orig.pix x y).b),
       (orig.pix x y).a⟩ := by
    simp only [applyReverseAlpha]
    rw [if_pos hin', if_neg hns, if_neg hnc, hcomp]
  obtain ⟨hr, hg, hb, _⟩ := hwf x y
  rw [hout]
  exact ⟨reverseChannel_compositeChannel _ _ hr ha1 ha2,
    reverseChannel_compositeChannel _ _ hg ha1 ha2,
    reverseChannel_compositeChannel _ _ hb ha1 ha2, rfl⟩

/-- Witness for C2 (amended) at a 1×1 rectangle with mask value `0.01`. -/
theorem removal_roundTrip_witness :
    |(((applyReverseAlpha (composite c2Orig [1 / 100] ⟨0, 0, 1, 1⟩)
        [1 / 100] ⟨0, 0, 1, 1⟩).pix 0 0).r : ℤ) - ((c2Orig.pix 0 0).r : ℤ)| ≤ 1 := by
  have h := removal_roundTrip c2Orig [1 / 100] ⟨0, 0, 1, 1⟩
    (fun _ _ => by refine ⟨?_, ?_, ?_, ?_⟩ <;> simp [c2Orig])
    (by decide)
    (by
      intro a ha
      rw [List.mem_singleton] at ha
      subst ha
      constructor <;> norm_num [alphaThreshold])
    0 0 (by decide)
  exact h.1

/-- Counterexample to Claim C2 as stated: with mask opacity `0.99` (inside
the claimed range `[0.002, 0.99]`) and original channel value `100`, the
nearest-byte composite is `253` and removal recovers `55`, which is off by
`45`, not within ±1. -/
theorem removal_roundTrip_counterexample :
    alphaThreshold ≤ (99 / 100 : ℚ) ∧ ((99 / 100 : ℚ) ≤ 99 / 100) ∧
    compositeChannel (99 / 100) 100 = 253 ∧
    (((applyReverseAlpha (composite c2Orig [99 / 100] ⟨0, 0, 1, 1⟩)
        [99 / 100] ⟨0, 0, 1, 1⟩).pix 0 0).r = 55) ∧
    (c2Orig.pix 0 0).r = 100 ∧
    ¬ (|(((applyReverseAlpha (composite c2Orig [99 / 100] ⟨0, 0, 1, 1⟩)
        [99 / 100] ⟨0, 0, 1, 1⟩).pix 0 0).r : ℤ)
          - (((c2Orig.pix 0 0).r : ℕ) : ℤ)| ≤ 1) := by
  refine ⟨?_, ?_, ?_, ?_, rfl, ?_⟩
  · exact of_decide_eq_true (by with_unfolding_all rfl)
  · exact of_decide_eq_true (by with_unfolding_all rfl)
  · exact of_decide_eq_true (by with_unfolding_all rfl)
  · exact of_decide_eq_true (by with_unfolding_all rfl)
  · exact of_decide_eq_true (by with_unfolding_all rfl)

/-- Cloning the `image.Image` view of a well-formed RGBA buffer reproduces
its pixels: `uint8((257 * v) >> 8) = v` for a byte `v`. -/
theorem cloneToRGBA_toImg (src : RGBAImage) (hwf : WellFormed src) (x y : ℤ)
    (hin : ptIn (x, y) src.bounds) :
    (cloneToRGBA (toImg src)).pix x y = src.pix x y := by
  obtain ⟨hr, hg, hb, ha⟩ := hwf x y
  have hdiv : ∀ v : ℕ, v ≤ 255 → 257 * v / 256 = v := by
    intro v hv
    omega
  have heta : src.pix x y = ⟨(src.pix x y).r, (src.pix x y).g,
      (src.pix x y).b, (src.pix x y).a⟩ := rfl
  simp only [cloneToRGBA, toImg]
  rw [if_pos hin, if_pos hin, heta, Pixel.mk.injEq]
  exact ⟨hdiv _ hr, hdiv _ hg, hdiv _ hb, hdiv _ ha⟩

/-- Claim C8: a successful removal keeps the bounds and returns a fresh
buffer that agrees with the input on every pixel outside the resolved
watermark rectangle.  (The Go code mutates only the freshly allocated clone,
never the caller's image; in this embedding `RemoveWatermark` is a pure
function of `img`, so the input is unchanged by construction.) -/
theorem removeWatermark_frame (assetMask : ℤ → Except Err (List ℚ))
    (src : RGBAImage) (out : RGBAImage) (hwf : WellFormed src)
    (h : RemoveWatermark assetMask (toImg src) = .ok out) :
    out.bounds = src.bounds ∧
    ∃ rect, calculateWatermarkRect src.bounds
        (DetectWatermarkConfig src.bounds.Dx src.bounds.Dy) = .ok rect ∧
      ∀ x y, ptIn (x, y) src.bounds → ¬ ptIn (x, y) rect →
        out.pix x y = src.pix x y := by
  have hbsrc : (toImg src).bounds = src.bounds := rfl
  simp only [RemoveWatermark, hbsrc] at h
  split at h
  · exact Except.noConfusion h
  · split at h
    · exact Except.noConfusion h
    · rename_i rect heq
      split at h
      · exact Except.noConfusion h
      · rename_i alphaMap heq2
        split at h
        · exact Except.noConfusion h
        · injection h with h'
          subst h'
          refine ⟨rfl, rect, heq, ?_⟩
          intro x y hinb hnin
          simp only [applyReverseAlpha]
          rw [if_neg hnin]
          exact cloneToRGBA_toImg src hwf x y hinb

/-- Witness for C8: removal with an all-zero mask on an 80×80 buffer
succeeds and the conclusion of `removeWatermark_frame` holds there. -/
theorem removeWatermark_frame_witness :
    (applyReverseAlpha (cloneToRGBA (toImg c8Src)) c8Mask ⟨0, 0, 48, 48⟩).bounds
        = c8Src.bounds ∧
    ∃ rect, calculateWatermarkRect c8Src.bounds
        (DetectWatermarkConfig c8Src.bounds.Dx c8Src.bounds.Dy) = .ok rect ∧
      ∀ x y, ptIn (x, y) c8Src.bounds → ¬ ptIn (x, y) rect →
        (applyReverseAlpha (cloneToRGBA (toImg c8Src)) c8Mask
          ⟨0, 0, 48, 48⟩).pix x y = c8Src.pix x y := by
  have hwf : WellFormed c8Src := fun _ _ => by
    refine ⟨?_, ?_, ?_, ?_⟩ <;> simp [c8Src]
  have hlen : ((c8Mask.length : ℕ) : ℤ) = 2304 := by
    show (((List.replicate 2304 (0 : ℚ)).length : ℕ) : ℤ) = 2304
    rw [List.length_replicate]
    norm_num
  have hok : RemoveWatermark (fun _ => .ok c8Mask) (toImg c8Src) =
      .ok (applyReverseAlpha (cloneToRGBA (toImg c8Src)) c8Mask
        ⟨0, 0, 48, 48⟩) := by
    have h1 : (toImg c8Src).bounds = (⟨0, 0, 80, 80⟩ : Rect) := rfl
    have h2 : DetectWatermarkConfig (⟨0, 0, 80, 80⟩ : Rect).Dx
        (⟨0, 0, 80, 80⟩ : Rect).Dy = ⟨48, 32, 32⟩ := rfl
    have h3 : calculateWatermarkRect ⟨0, 0, 80, 80⟩ ⟨48, 32, 32⟩ =
        .ok ⟨0, 0, 48, 48⟩ := rfl
    have h4 : getAlphaMap (fun _ => .ok c8Mask) (48 : ℤ) = .ok c8Mask := rfl
    have h5 : ¬ ((c8Mask.length : ℤ) ≠
        (⟨0, 0, 48, 48⟩ : Rect).Dx * (⟨0, 0, 48, 48⟩ : Rect).Dy) := by
      rw [hlen]
      decide
    simp only [RemoveWatermark, h1, h2, h3, h4]
    rw [if_neg (by decide : ¬ ((⟨0, 0, 80, 80⟩ : Rect).Dx ≤ 0 ∨
      (⟨0, 0, 80, 80⟩ : Rect).Dy ≤ 0)), if_neg h5]
  exact removeWatermark_frame (fun _ => .ok c8Mask) c8Src _ hwf hok

/-- Element lookup in a row-major double loop: entry `row*W + col` of
`flatMap` over `range H` of `map` over `range W` is `g row col`. -/
theorem flatMapRange_getD {α : Type} (W : ℕ) (d : α) :
    ∀ (H : ℕ) (g : ℕ → ℕ → α) (row col : ℕ), row < H → col < W →
      (((List.range H).flatMap fun i => (List.range W).map (g i)).getD
        (row * W + col) d) = g row col := by
  intro H
  induction H with
  | zero =>
    intro g row col hrow hcol
    exact absurd hrow (Nat.not_lt_zero row)
  | succ n ih =>
    intro g row col hrow hcol
    rw [List.range_succ_eq_map, List.flatMap_cons, List.flatMap_map]
    cases row with
    | zero =>
      have hl : col < ((List.range W).map (g 0)).length := by
        rw [List.length_map, List.length_range]
        exact hcol
      rw [Nat.zero_mul, Nat.zero_add, List.getD_append _ _ _ _ hl,
        List.getD_eq_getElem _ _ hl, List.getElem_map, List.getElem_range]
    | succ m =>
      have hlen : ((List.range W).map (g 0)).length = W := by
        rw [List.length_map, List.length_range]
      have hge : ((List.range W).map (g 0)).length ≤ (m + 1) * W + col := by
        rw [hlen, Nat.succ_mul]
        omega
      rw [List.getD_append_right _ _ _ _ hge, hlen]
      have hidx : (m + 1) * W + col - W = m * W + col := by
        rw [Nat.succ_mul]
        omega
      rw [hidx]
      have := ih (fun i => g (i + 1)) m col (Nat.lt_of_succ_lt_succ hrow) hcol
      simpa [Function.comp] using this

/-- Entry `row*W + col` of `rectPoints` is the point at that row and
column. -/
theorem rectPoints_getD (r : Rect) (row col : ℕ)
    (hrow : row < r.Dy.toNat) (hcol : col < r.Dx.toNat) :
    (rectPoints r).getD (row * r.Dx.toNat + col) (0, 0) =
      (r.minX + col, r.minY + row) := by
  unfold rectPoints
  exact flatMapRange_getD r.Dx.toNat (0, 0) r.Dy.toNat
    (fun i j => (r.minX + j, r.minY + i)) row col hrow hcol

/-- `rectPoints` enumerates `Dy * Dx` points. -/
theorem rectPoints_length (r : Rect) :
    (rectPoints r).length = r.Dy.toNat * r.Dx.toNat := by
  unfold rectPoints
  rw [List.length_flatMap]
  simp only [Function.comp_def]
  have h1 : ((List.range r.Dy.toNat).map fun (row : ℕ) =>
      (((List.range r.Dx.toNat).map fun (col : ℕ) =>
        ((r.minX + (col : ℤ), r.minY + (row : ℤ)) : ℤ × ℤ)).length)) =
      (List.range r.Dy.toNat).map fun _ => r.Dx.toNat := by
    apply List.map_congr_left
    intro a _
    rw [List.length_map, List.length_range]
  rw [h1, List.map_const', List.sum_replicate, smul_eq_mul,
    List.length_range]

/-- `rectPoints` enumerates exactly the points of the rectangle. -/
theorem mem_rectPoints (r : Rect) (p : ℤ × ℤ) :
    p ∈ rectPoints r ↔ ptIn p r := by
  have hdx : r.Dx = r.maxX - r.minX := rfl
  have hdy : r.Dy = r.maxY - r.minY := rfl
  unfold rectPoints ptIn
  simp only [List.mem_flatMap, List.mem_map, List.mem_range]
  constructor
  · rintro ⟨row, hrow, col, hcol, rfl⟩
    dsimp only
    refine ⟨by omega, by omega, by omega, by omega⟩
  · rintro ⟨h1, h2, h3, h4⟩
    refine ⟨(p.2 - r.minY).toNat, by omega, (p.1 - r.minX).toNat, by omega, ?_⟩
    rw [Prod.ext_iff]
    dsimp only
    refine ⟨by omega, by omega⟩

/-- `getD` through a `map`, at an in-range index. -/
theorem getD_map_point (l : List (ℤ × ℤ)) (f : ℤ × ℤ → ℚ) (i : ℕ)
    (h : i < l.length) :
    (l.map f).getD i 0 = f (l.getD i (0, 0)) := by
  have h' : i < (l.map f).length := by
    rw [List.length_map]
    exact h
  rw [List.getD_eq_getElem _ _ h', List.getElem_map,
    List.getD_eq_getElem _ _ h]

/-- Claim C7: the alpha mask computed from a decoded reference capture is the
row-major sequence of `max(R, G, B) / 65535` per pixel; its length is the
pixel count of the image, and when the channels are genuine 16-bit values
every entry lies in `[0, 1]`. -/
theorem calculateAlphaMap_spec (img : Img) :
    (calculateAlphaMap img).length =
      img.bounds.Dy.toNat * img.bounds.Dx.toNat ∧
    (∀ x y, ptIn (x, y) img.bounds →
      (calculateAlphaMap img).getD
        ((y - img.bounds.minY).toNat * img.bounds.Dx.toNat +
         (x - img.bounds.minX).toNat) 0 =
        ((max (img.At x y).1 (max (img.At x y).2.1 (img.At x y).2.2.1) : ℕ) : ℚ)
          / 65535) ∧
    ((∀ x y, (img.At x y).1 ≤ 65535 ∧ (img.At x y).2.1 ≤ 65535 ∧
        (img.At x y).2.2.1 ≤ 65535) →
      ∀ q ∈ calculateAlphaMap img, 0 ≤ q ∧ q ≤ 1) := by
  refine ⟨?_, ?_, ?_⟩
  · unfold calculateAlphaMap
    rw [List.length_map, rectPoints_length]
  · intro x y hin
    obtain ⟨h1, h2, h3, h4⟩ := hin
    have hrow : (y - img.bounds.minY).toNat < img.bounds.Dy.toNat := by
      have : img.bounds.Dy = img.bounds.maxY - img.bounds.minY := rfl
      omega
    have hcol : (x - img.bounds.minX).toNat < img.bounds.Dx.toNat := by
      have : img.bounds.Dx = img.bounds.maxX - img.bounds.minX := rfl
      omega
    have hidx : (y - img.bounds.minY).toNat * img.bounds.Dx.toNat +
        (x - img.bounds.minX).toNat < (rectPoints img.bounds).length := by
      rw [rectPoints_length]
      calc (y - img.bounds.minY).toNat * img.bounds.Dx.toNat +
          (x - img.bounds.minX).toNat
          < (y - img.bounds.minY).toNat * img.bounds.Dx.toNat +
            img.bounds.Dx.toNat := by omega
        _ = ((y - img.bounds.minY).toNat + 1) * img.bounds.Dx.toNat := by ring
        _ ≤ img.bounds.Dy.toNat * img.bounds.Dx.toNat :=
            Nat.mul_le_mul_right _ hrow
    unfold calculateAlphaMap
    rw [getD_map_point _ _ _ hidx,
      rectPoints_getD img.bounds _ _ hrow hcol]
    have hpt : ((img.bounds.minX + ((x - img.bounds.minX).toNat : ℤ),
        img.bounds.minY + ((y - img.bounds.minY).toNat : ℤ)) : ℤ × ℤ) =
        (x, y) := by
      rw [Prod.mk.injEq]
      refine ⟨by omega, by omega⟩
    rw [hpt]
  · intro hch q hq
    unfold calculateAlphaMap at hq
    rw [List.mem_map] at hq
    obtain ⟨p, _, rfl⟩ := hq
    obtain ⟨hr, hg, hb⟩ := hch p.1 p.2
    constructor
    · positivity
    · rw [div_le_one (by norm_num)]
      have hmax : max (img.At p.1 p.2).1
          (max (img.At p.1 p.2).2.1 (img.At p.1 p.2).2.2.1) ≤ 65535 :=
        max_le hr (max_le hg hb)
      exact_mod_cast hmax

/-- Witness for C7 on a 1×1 capture: one entry, `300/65535`, within
`[0, 1]`. -/
theorem calculateAlphaMap_spec_witness :
    (calculateAlphaMap c7Img).length = 1 ∧
    (calculateAlphaMap c7Img).getD 0 0 = (300 : ℚ) / 65535 ∧
    (∀ q ∈ calculateAlphaMap c7Img, 0 ≤ q ∧ q ≤ 1) := by
  have h := calculateAlphaMap_spec c7Img
  refine ⟨h.1, ?_, ?_⟩
  · have h2 := h.2.1 0 0 (by decide)
    simpa using h2
  · exact h.2.2 (fun x y => by refine ⟨?_, ?_, ?_⟩ <;> simp [c7Img])

/-- Claim C6: a mask whose length differs from the rectangle area makes
removal fail with `sizeMismatch` (no output buffer is produced), and makes
detection scoring fail with `sizeMismatch`, in both cases before any pixel
arithmetic. -/
theorem sizeMismatch_spec :
    (∀ (assetMask : ℤ → Except Err (List ℚ)) (img : Img) (rect : Rect)
       (alphaMap : List ℚ),
      ¬ (img.bounds.Dx ≤ 0 ∨ img.bounds.Dy ≤ 0) →
      calculateWatermarkRect img.bounds
        (DetectWatermarkConfig img.bounds.Dx img.bounds.Dy) = .ok rect →
      getAlphaMap assetMask
        (DetectWatermarkConfig img.bounds.Dx img.bounds.Dy).LogoSize =
        .ok alphaMap →
      (alphaMap.length : ℤ) ≠ rect.Dx * rect.Dy →
      RemoveWatermark assetMask img = .error .sizeMismatch) ∧
    (∀ (img : Img) (rect : Rect) (alphaMap : List ℚ) (bgMean : ℚ),
      ¬ (rect.Dx ≤ 0 ∨ rect.Dy ≤ 0) →
      (alphaMap.length : ℤ) ≠ rect.Dx * rect.Dy →
      scoreWatermark img rect alphaMap bgMean = .error .sizeMismatch) := by
  constructor
  · intro assetMask img rect alphaMap hdim hrect hmask hne
    simp only [RemoveWatermark, if_neg hdim, hrect, hmask, if_pos hne]
  · intro img rect alphaMap bgMean hdim hne
    have hcore : scoreCore img rect alphaMap bgMean = .error .sizeMismatch := by
      simp only [scoreCore, if_neg hdim, if_pos hne]
    simp only [scoreWatermark, hcore]

/-- Witness for C6 with an empty mask: an 80×80 image (rectangle area 2304)
and a 1×1 scoring rectangle. -/
theorem sizeMismatch_spec_witness :
    RemoveWatermark (fun _ => .ok []) (toImg c8Src) = .error .sizeMismatch ∧
    scoreWatermark (toImg c8Src) ⟨0, 0, 1, 1⟩ [] 0 = .error .sizeMismatch := by
  constructor
  · exact sizeMismatch_spec.1 (fun _ => .ok []) (toImg c8Src) ⟨0, 0, 48, 48⟩ []
      (by decide) rfl rfl (by decide)
  · exact sizeMismatch_spec.2 (toImg c8Src) ⟨0, 0, 1, 1⟩ [] 0
      (by decide) (by decide)

/-- Claim C9: the byte entry points are the codec composed with the image
entry points.  Detection on bytes equals detection on the decoded image
(same present flag, score and info, exactly); removal on bytes equals
detect-then-remove-then-encode on the decoded image. -/
theorem bytes_refinement :
    (∀ (decode : List ℕ → Except Err Img)
       (assetMask : ℤ → Except Err (List ℚ)) (data : List ℕ) (img : Img),
      data ≠ [] → decode data = .ok img →
      DetectWatermarkBytes decode assetMask data =
        DetectWatermark assetMask img) ∧
    (∀ (decode : List ℕ → Except Err Img)
       (encodePNG : RGBAImage → Except Err (List ℕ))
       (assetMask : ℤ → Except Err (List ℚ)) (data : List ℕ) (img : Img),
      data ≠ [] → decode data = .ok img →
      RemoveWatermarkBytes decode encodePNG assetMask data =
        detectThenRemoveImage encodePNG assetMask img) := by
  constructor
  · intro decode assetMask data img hne hdec
    simp only [DetectWatermarkBytes, if_neg hne, hdec]
  · intro decode encodePNG assetMask data img hne hdec
    simp only [RemoveWatermarkBytes, detectThenRemoveImage, if_neg hne, hdec]

/-- Witness for C9 with a one-byte payload and a decoder returning
`c9Img`. -/
theorem bytes_refinement_witness :
    DetectWatermarkBytes (fun _ => .ok c9Img) (fun _ => .error .unsupportedSize)
        [0] = DetectWatermark (fun _ => .error .unsupportedSize) c9Img ∧
    RemoveWatermarkBytes (fun _ => .ok c9Img) (fun _ => .ok [])
        (fun _ => .error .unsupportedSize) [0] =
      detectThenRemoveImage (fun _ => .ok [])
        (fun _ => .error .unsupportedSize) c9Img := by
  constructor
  · exact bytes_refinement.1 (fun _ => .ok c9Img)
      (fun _ => .error .unsupportedSize) [0] c9Img (by decide) rfl
  · exact bytes_refinement.2 (fun _ => .ok c9Img) (fun _ => .ok [])
      (fun _ => .error .unsupportedSize) [0] c9Img (by decide) rfl

/-- Claim C3: whenever detection succeeds, the reported `present` flag is
true exactly when the mask-weighted luma delta exceeds `6.0` and the
opacity/residual Pearson correlation exceeds `0.20`; and whenever either
series of the correlation has zero variance, the correlation is reported as
`0` and scoring still succeeds. -/
theorem detectWatermark_presence_spec :
    (∀ (assetMask : ℤ → Except Err (List ℚ)) (img : Img) (present : Bool)
       (score : ℚ) (info : Info),
      DetectWatermark assetMask img = .ok (present, score, info) →
      ∃ rect alphaMap bgMean corr,
        scoreWatermark img rect alphaMap bgMean = .ok (score, corr) ∧
        (present = true ↔
          (detectionLumaThreshold < score ∧
           ((detectionCorrelationThreshold : ℚ) : ℝ) < corr))) ∧
    (∀ (img : Img) (rect : Rect) (alphaMap : List ℚ)
       (bgMean delta numerator alphaVar resVar : ℚ),
      scoreCore img rect alphaMap bgMean =
        .ok (delta, numerator, alphaVar, resVar) →
      alphaVar = 0 ∨ resVar = 0 →
      scoreWatermark img rect alphaMap bgMean = .ok (delta, 0)) := by
  constructor
  · intro assetMask img present score info h
    simp only [DetectWatermark] at h
    split at h
    · exact Except.noConfusion h
    · split at h
      · exact Except.noConfusion h
      · rename_i rect heq
        split at h
        · exact Except.noConfusion h
        · rename_i alphaMap heq2
          split at h
          · exact Except.noConfusion h
          · split at h
            · exact Except.noConfusion h
            · rename_i score' corr' heq3
              simp only [Except.ok.injEq, Prod.mk.injEq] at h
              obtain ⟨hp, hs, hi⟩ := h
              rw [← hs]
              refine ⟨rect, alphaMap, _, corr', heq3, ?_⟩
              rw [← hp]
              unfold detectPresent
              rw [Bool.and_eq_true, decide_eq_true_eq, decide_eq_true_eq]
  · intro img rect alphaMap bgMean delta numerator alphaVar resVar hcore hz
    simp only [scoreWatermark, hcore]
    have hprod : ((alphaVar * resVar : ℚ) : ℝ) = 0 := by
      rcases hz with h | h <;> rw [h] <;> push_cast <;> ring
    rw [hprod, Real.sqrt_zero, if_pos rfl]

theorem foldl_add_self_zero :
    ∀ (l : List ℚ), (∀ x ∈ l, x = 0) → ∀ c : ℚ,
      l.foldl (fun s x => s + x) c = c := by
  intro l
  induction l with
  | nil => intro _ c; rfl
  | cons a t ih =>
    intro h c
    rw [List.foldl_cons, h a (List.mem_cons_self a t), add_zero]
    exact ih (fun x hx => h x (List.mem_cons_of_mem a hx)) c

theorem foldl_add_replicate_self (a : ℚ) :
    ∀ (n : ℕ) (c : ℚ),
      (List.replicate n a).foldl (fun s x => s + x) c = c + n * a := by
  intro n
  induction n with
  | zero => intro c; simp
  | succ m ih =>
    intro c
    rw [List.replicate_succ, List.foldl_cons, ih]
    push_cast
    ring

theorem foldl_add_replicate_sq (a : ℚ) :
    ∀ (n : ℕ) (c : ℚ),
      (List.replicate n a).foldl (fun s x => s + x * x) c = c + n * (a * a) := by
  intro n
  induction n with
  | zero => intro c; simp
  | succ m ih =>
    intro c
    rw [List.replicate_succ, List.foldl_cons, ih]
    push_cast
    ring

theorem foldl_pair_mul_zero :
    ∀ (l : List (ℚ × ℚ)), (∀ x ∈ l, x.1 = 0) → ∀ c : ℚ,
      l.foldl (fun s ra => s + ra.1 * ra.2) c = c := by
  intro l
  induction l with
  | nil => intro _ c; rfl
  | cons a t ih =>
    intro h c
    rw [List.foldl_cons, h a (List.mem_cons_self a t), zero_mul, add_zero]
    exact ih (fun x hx => h x (List.mem_cons_of_mem a hx)) c

theorem foldl_luma_sub_zero (img : Img) (bg : ℚ)
    (hz : ∀ p : ℤ × ℤ, lumaAt img p - bg = 0) :
    ∀ (l : List ((ℤ × ℤ) × ℚ)) (c : ℚ),
      l.foldl (fun s pa => s + (lumaAt img pa.1 - bg)) c = c := by
  intro l
  induction l with
  | nil => intro c; rfl
  | cons a t ih =>
    intro c
    rw [List.foldl_cons, hz a.1, add_zero]
    exact ih c

theorem foldl_centered_zero (A B : ℚ) :
    ∀ (l : List (ℚ × ℚ)), (∀ x ∈ l, x.1 = A) → ∀ c : ℚ,
      l.foldl (fun s ar => s + (ar.1 - A) * (ar.2 - B)) c = c := by
  intro l
  induction l with
  | nil => intro _ c; rfl
  | cons a t ih =>
    intro h c
    rw [List.foldl_cons, h a (List.mem_cons_self a t), sub_self, zero_mul, add_zero]
    exact ih (fun x hx => h x (List.mem_cons_of_mem a hx)) c

theorem foldl_sq_dev_zero (B : ℚ) :
    ∀ (l : List ℚ), (∀ x ∈ l, x = B) → ∀ c : ℚ,
      l.foldl (fun s x => s + (x - B) * (x - B)) c = c := by
  intro l
  induction l with
  | nil => intro _ c; rfl
  | cons a t ih =>
    intro h c
    rw [List.foldl_cons, h a (List.mem_cons_self a t), sub_self, zero_mul, add_zero]
    exact ih (fun x hx => h x (List.mem_cons_of_mem a hx)) c

theorem foldl_luma_zero (img : Img) (hz : ∀ p : ℤ × ℤ, lumaAt img p = 0) :
    ∀ (l : List (ℤ × ℤ)) (c : ℚ),
      l.foldl (fun s p => s + lumaAt img p) c = c := by
  intro l
  induction l with
  | nil => intro c; rfl
  | cons a t ih =>
    intro c
    rw [List.foldl_cons, hz a, add_zero]
    exact ih c

/-- On an image whose luma vanishes everywhere, every `meanLuma` mean is
zero. -/
theorem meanLuma_zero_luma (img : Img) (hz : ∀ p : ℤ × ℤ, lumaAt img p = 0)
    (region exclude : Rect) : (meanLuma img region exclude).1 = 0 := by
  unfold meanLuma
  by_cases h : ((rectPoints region).filter fun p =>
      !(decide (exclude ≠ zeroRect) && decide (ptIn p exclude))).length = 0
  · rw [if_pos h]
  · rw [if_neg h, foldl_luma_zero img hz, zero_div]

/-- With the zero exclusion rectangle, `meanLuma` samples every point. -/
theorem meanLuma_count_all (img : Img) (region : Rect) :
    (meanLuma img region zeroRect).2 = (rectPoints region).length := by
  unfold meanLuma
  have hf : ((rectPoints region).filter fun p =>
      !(decide (zeroRect ≠ zeroRect) && decide (ptIn p zeroRect))) =
      rectPoints region := by
    apply List.filter_eq_self.mpr
    intro p _
    rw [show decide (zeroRect ≠ zeroRect) = false from by decide,
      Bool.false_and]
    rfl
  rw [hf]
  by_cases h : (rectPoints region).length = 0
  · rw [if_pos h]
    exact h.symm
  · rw [if_neg h]

/-- `meanLuma` counts at least one pixel when some point of the region
survives the exclusion. -/
theorem meanLuma_count_pos (img : Img) (region exclude : Rect) (p : ℤ × ℤ)
    (hp : ptIn p region)
    (hskip : (!(decide (exclude ≠ zeroRect) && decide (ptIn p exclude))) = true) :
    (meanLuma img region exclude).2 ≠ 0 := by
  unfold meanLuma
  have hmem : p ∈ (rectPoints region).filter fun q =>
      !(decide (exclude ≠ zeroRect) && decide (ptIn q exclude)) :=
    List.mem_filter.mpr ⟨(mem_rectPoints region p).mpr hp, hskip⟩
  have hlen : ((rectPoints region).filter fun q =>
      !(decide (exclude ≠ zeroRect) && decide (ptIn q exclude))).length ≠ 0 := by
    intro h0
    rw [List.length_eq_zero] at h0
    rw [h0] at hmem
    exact List.not_mem_nil p hmem
  rw [if_neg hlen]
  exact hlen

theorem lumaAt_c3 : ∀ p : ℤ × ℤ, lumaAt c3Img p = 0 := by
  intro p
  simp [lumaAt, c3Img]

theorem scoreCore_c3 :
    scoreCore c3Img ⟨0, 0, 48, 48⟩ c3Mask 0 = .ok (0, 0, 0, 0) := by
  have hcm : c3Mask.length = 2304 := by
    show (List.replicate 2304 ((1 : ℚ) / 100)).length = 2304
    rw [List.length_replicate]
  have hmem : ∀ a ∈ c3Mask, a = 1 / 100 := by
    intro a ha
    exact List.eq_of_mem_replicate (show a ∈ List.replicate 2304 ((1:ℚ)/100) from ha)
  have hfil : (((rectPoints ⟨0, 0, 48, 48⟩).zip c3Mask).filter
      fun pa => decide (pa.2 < clearAlphaCutoff)) =
      (rectPoints ⟨0, 0, 48, 48⟩).zip c3Mask := by
    apply List.filter_eq_self.mpr
    intro pa hpa
    rw [hmem pa.2 (List.of_mem_zip hpa).2]
    exact decide_eq_true (by norm_num [clearAlphaCutoff])
  have hzl : ((rectPoints ⟨0, 0, 48, 48⟩).zip c3Mask).length = 2304 := by
    rw [List.length_zip, rectPoints_length, hcm]
    decide
  have hres : ∀ x ∈ ((rectPoints ⟨0, 0, 48, 48⟩).zip c3Mask).map
      (fun pa => lumaAt c3Img pa.1 - 0), x = 0 := by
    intro x hx
    rw [List.mem_map] at hx
    obtain ⟨pa, _, rfl⟩ := hx
    rw [lumaAt_c3 pa.1]
    ring
  have hsa : c3Mask.foldl (fun s x => s + x) 0 = 2304 / 100 := by
    show (List.replicate 2304 ((1 : ℚ) / 100)).foldl (fun s x => s + x) 0 =
      2304 / 100
    rw [foldl_add_replicate_self]
    norm_num
  have hsaq : c3Mask.foldl (fun s x => s + x * x) 0 = 2304 / 10000 := by
    show (List.replicate 2304 ((1 : ℚ) / 100)).foldl (fun s x => s + x * x) 0 =
      2304 / 10000
    rw [foldl_add_replicate_sq]
    norm_num
  have hsr : (((rectPoints ⟨0, 0, 48, 48⟩).zip c3Mask).map
      (fun pa => lumaAt c3Img pa.1 - 0)).foldl (fun s x => s + x) 0 = 0 :=
    foldl_add_self_zero _ hres 0
  have hwr : ((((rectPoints ⟨0, 0, 48, 48⟩).zip c3Mask).map
      (fun pa => lumaAt c3Img pa.1 - 0)).zip c3Mask).foldl
      (fun s ra => s + ra.1 * ra.2) 0 = 0 := by
    apply foldl_pair_mul_zero
    intro x hx
    exact hres x.1 (List.of_mem_zip hx).1
  have hcs : ((rectPoints ⟨0, 0, 48, 48⟩).zip c3Mask).foldl
      (fun s pa => s + (lumaAt c3Img pa.1 - 0)) 0 = 0 :=
    foldl_luma_sub_zero c3Img 0 (fun p => by rw [lumaAt_c3 p]; ring) _ 0
  have hreq : (⟨0, 0, 48, 48⟩ : Rect).Dx.toNat *
      (⟨0, 0, 48, 48⟩ : Rect).Dy.toNat = 2304 := by
    decide
  have hml : ¬ ((c3Mask.length : ℤ) ≠
      (⟨0, 0, 48, 48⟩ : Rect).Dx * (⟨0, 0, 48, 48⟩ : Rect).Dy) := by
    rw [hcm]
    decide
  simp only [scoreCore]
  rw [if_neg (by decide : ¬ ((⟨0, 0, 48, 48⟩ : Rect).Dx ≤ 0 ∨
    (⟨0, 0, 48, 48⟩ : Rect).Dy ≤ 0)), if_neg hml]
  rw [hfil, hreq, hsa, hsaq, hsr, hwr, hcs, hzl]
  rw [if_neg (by norm_num : ¬ ((2304 : ℕ) = 0)),
    if_neg (by norm_num : ¬ ((2304 : ℚ) / 100 = 0))]
  have hA : (2304 / 100 : ℚ) / ((2304 : ℕ) : ℚ) = 1 / 100 := by
    norm_num
  have hB : (0 : ℚ) / ((2304 : ℕ) : ℚ) = 0 := zero_div _
  rw [hA, hB]
  have hnum : ((c3Mask.zip (((rectPoints ⟨0, 0, 48, 48⟩).zip c3Mask).map
      (fun pa => lumaAt c3Img pa.1 - 0))).foldl
      (fun s ar => s + (ar.1 - 1 / 100) * (ar.2 - 0)) 0) = 0 := by
    apply foldl_centered_zero
    intro x hx
    exact hmem x.1 (List.of_mem_zip hx).1
  have hrv : ((((rectPoints ⟨0, 0, 48, 48⟩).zip c3Mask).map
      (fun pa => lumaAt c3Img pa.1 - 0)).foldl
      (fun s x => s + (x - 0) * (x - 0)) 0) = 0 := by
    apply foldl_sq_dev_zero
    exact hres
  rw [hnum, hrv]
  rw [Except.ok.injEq, Prod.mk.injEq, Prod.mk.injEq, Prod.mk.injEq]
  refine ⟨by norm_num, rfl, by norm_num, rfl⟩

/-- `scoreWatermark` when the core quantities are known and one variance is
zero (abstract version, shared by the C3 theorem and its witness). -/
theorem scoreWatermark_eq_of_core (img : Img) (rect : Rect)
    (alphaMap : List ℚ) (bgMean delta numerator alphaVar resVar : ℚ)
    (hcore : scoreCore img rect alphaMap bgMean =
      .ok (delta, numerator, alphaVar, resVar))
    (hz : alphaVar = 0 ∨ resVar = 0) :
    scoreWatermark img rect alphaMap bgMean = .ok (delta, 0) := by
  simp only [scoreWatermark, hcore]
  have hprod : ((alphaVar * resVar : ℚ) : ℝ) = 0 := by
    rcases hz with h | h <;> rw [h] <;> push_cast <;> ring
  rw [hprod, Real.sqrt_zero, if_pos rfl]

theorem scoreWatermark_c3 :
    scoreWatermark c3Img ⟨0, 0, 48, 48⟩ c3Mask 0 = .ok (0, 0) :=
  scoreWatermark_eq_of_core c3Img ⟨0, 0, 48, 48⟩ c3Mask 0 0 0 0 0
    scoreCore_c3 (Or.inl rfl)

/-- `DetectWatermark` when every stage's outcome is known (abstract version,
so that no concrete pipeline value is ever reduced). -/
theorem detectWatermark_eval (assetMask : ℤ → Except Err (List ℚ))
    (img : Img) (rect : Rect) (alphaMap : List ℚ) (score : ℚ) (corr : ℝ)
    (hdim : ¬ (img.bounds.Dx ≤ 0 ∨ img.bounds.Dy ≤ 0))
    (hrect : calculateWatermarkRect img.bounds
      (DetectWatermarkConfig img.bounds.Dx img.bounds.Dy) = .ok rect)
    (hmask : getAlphaMap assetMask
      (DetectWatermarkConfig img.bounds.Dx img.bounds.Dy).LogoSize =
      .ok alphaMap)
    (hc1 : (meanLuma img rect zeroRect).2 ≠ 0)
    (hc2 : (meanLuma img ((rect.Inset (-(bandOf
        (DetectWatermarkConfig img.bounds.Dx img.bounds.Dy).LogoSize))).Intersect
        img.bounds) rect).2 ≠ 0)
    (hscore : scoreWatermark img rect alphaMap
      ((meanLuma img ((rect.Inset (-(bandOf
        (DetectWatermarkConfig img.bounds.Dx img.bounds.Dy).LogoSize))).Intersect
        img.bounds) rect).1) = .ok (score, corr)) :
    DetectWatermark assetMask img =
      .ok (detectPresent score corr, score,
        ⟨(DetectWatermarkConfig img.bounds.Dx img.bounds.Dy).LogoSize, rect⟩) := by
  simp only [DetectWatermark]
  rw [if_neg hdim]
  simp only [hrect, hmask]
  rw [if_neg (by push_neg; exact ⟨hc1, hc2⟩)]
  simp only [hscore]

theorem detectWatermark_c3_eval :
    DetectWatermark (fun _ => .ok c3Mask) c3Img =
      .ok (false, 0, ⟨48, ⟨0, 0, 48, 48⟩⟩) := by
  have hcfg : DetectWatermarkConfig c3Img.bounds.Dx c3Img.bounds.Dy =
      ⟨48, 32, 32⟩ := rfl
  have houter : ((⟨0, 0, 48, 48⟩ : Rect).Inset (-(bandOf
      (DetectWatermarkConfig c3Img.bounds.Dx c3Img.bounds.Dy).LogoSize))).Intersect
      c3Img.bounds = ⟨0, 0, 64, 64⟩ := by decide
  have hc1 : (meanLuma c3Img ⟨0, 0, 48, 48⟩ zeroRect).2 ≠ 0 := by
    rw [meanLuma_count_all, rectPoints_length]
    decide
  have hc2 : (meanLuma c3Img ⟨0, 0, 64, 64⟩ ⟨0, 0, 48, 48⟩).2 ≠ 0 :=
    meanLuma_count_pos c3Img _ _ (48, 0) (by decide) (by decide)
  have hmean : (meanLuma c3Img ⟨0, 0, 64, 64⟩ ⟨0, 0, 48, 48⟩).1 = 0 :=
    meanLuma_zero_luma c3Img lumaAt_c3 _ _
  have hpres : detectPresent 0 0 = false := by
    unfold detectPresent
    rw [decide_eq_false
      (by norm_num [detectionLumaThreshold] :
        ¬ (detectionLumaThreshold < (0 : ℚ))), Bool.false_and]
  have h := detectWatermark_eval (fun _ => .ok c3Mask) c3Img ⟨0, 0, 48, 48⟩
    c3Mask 0 0
    (by decide)
    rfl
    rfl
    hc1
    (by rw [houter]; exact hc2)
    (by rw [houter, hmean]; exact scoreWatermark_c3)
  rw [h, hpres, hcfg]

/-- Witness for C3: on the all-black 80×80 image with the constant `0.01`
mask, detection succeeds with `present = false`, score `0`, correlation `0`
(both series have zero variance), and the claim theorem applies. -/
theorem detectWatermark_presence_spec_witness :
    (∃ rect alphaMap bgMean corr,
      scoreWatermark c3Img rect alphaMap bgMean = .ok (0, corr) ∧
      (false = true ↔
        (detectionLumaThreshold < (0 : ℚ) ∧
         ((detectionCorrelationThreshold : ℚ) : ℝ) < corr))) ∧
    scoreWatermark c3Img ⟨0, 0, 48, 48⟩ c3Mask 0 = .ok (0, 0) :=
  ⟨detectWatermark_presence_spec.1 (fun _ => .ok c3Mask) c3Img false 0
      ⟨48, ⟨0, 0, 48, 48⟩⟩ detectWatermark_c3_eval,
   detectWatermark_presence_spec.2 c3Img ⟨0, 0, 48, 48⟩ c3Mask 0 0 0 0 0
      scoreCore_c3 (Or.inl rfl)⟩

end Watermark
